import Mathlib

/-!
Verification of the adaptive reminder scheduling core of `drink_reminder`.

The development shallowly embeds the relevant Python source files:

* `src/app.py` — the dynamic reminder-interval policy
  (`_get_dynamic_reminder_interval`);
* `src/event_manager.py` — the severity counter (`EventManager.trigger_event`);
* `src/timer_manager.py` — the timer registry, the firing loop, the global
  minimum-gap check and persistence (`TimerManager`).

Timestamps are modelled as rationals (seconds since an arbitrary epoch);
`datetime` subtraction and `timedelta(minutes=m)` become rational arithmetic.
Random draws (`random.randint`) and clock reads (`get_accurate_time`) are
supplied as explicit oracle inputs to each step.  ISO-8601 serialisation of
timestamps (`isoformat`/`fromisoformat`), which round-trips exactly, is
modelled as the identity on the rational timestamp values.
-/

namespace DrinkReminder

/-! ### Interval policy (`app._get_dynamic_reminder_interval`) -/

/-- Truncation toward zero on rationals, modelling Python `int()` applied to a
real number. -/
def truncQ (q : ℚ) : ℤ := if q < 0 then ⌈q⌉ else ⌊q⌋

/-- The pre-clamp interval computed in `_get_dynamic_reminder_interval`
(src/app.py lines 366–374): `base` for `level ≤ 0`, `limit` for
`level ≥ 3.0`, linear interpolation in between.  The source hard-codes
`level_max = 3.0`. -/
def rawInterval (base limit : ℤ) (level : ℚ) : ℚ :=
  if level ≤ 0 then (base : ℚ)
  else if 3 ≤ level then (limit : ℚ)
  else (base : ℚ) - ((base : ℚ) - (limit : ℚ)) * (level / 3)

/-- `_get_dynamic_reminder_interval` (src/app.py lines 355–377):
`max(limit, min(base, int(interval)))` applied to the interpolated value. -/
def dynamicReminderInterval (base limit : ℤ) (level : ℚ) : ℤ :=
  max limit (min base (truncQ (rawInterval base limit level)))

/-- The interval formula as the spec words it (§4.3): linear interpolation on
the clamped level, *rounded to nearest* whole minute, clamped to
`[limit, base]`.  Used to compare the spec's rounding mode against the
source's truncation. -/
def computeIntervalSpecRound (level : ℚ) (base limit : ℤ) (levelMax : ℚ) : ℤ :=
  max limit (min base
    (round ((base : ℚ) - ((base : ℚ) - (limit : ℚ)) * (max 0 (min levelMax level)) / levelMax)))

/-- The same formula with the source's actual rounding mode (truncation toward
zero), `levelMax` instantiated as in the source. -/
def computeIntervalTrunc (level : ℚ) (base limit : ℤ) (levelMax : ℚ) : ℤ :=
  max limit (min base
    (truncQ ((base : ℚ) - ((base : ℚ) - (limit : ℚ)) * (max 0 (min levelMax level)) / levelMax)))

/-! ### Severity counter (`event_manager.EventManager.trigger_event`) -/

/-- The count key built in `trigger_event` (src/event_manager.py lines
31–35): `"{timer_name}:{event_type}"` for timer-scoped events, the bare
`event_type` otherwise. -/
def countKey (event_type : String) (timer_name : Option String) : String :=
  match timer_name with
  | some t => t ++ ":" ++ event_type
  | none => event_type

/-- `trigger_event` restricted to its counting effect (src/event_manager.py
lines 26–66): increment the key's count (absent keys count as 0, as in
`dict.get(key, 0)`) and return the new count as the severity, together with
the updated count map. -/
def triggerEvent (counts : String → ℕ) (event_type : String) (timer_name : Option String) :
    ℕ × (String → ℕ) :=
  let key := countKey event_type timer_name
  let c := counts key + 1
  (c, Function.update counts key c)

/-- Resetting a key's count to zero, as in
`event_counts['empty_reminder:empty_reminder'] = 0` (src/app.py line 1169). -/
def resetCount (counts : String → ℕ) (key : String) : String → ℕ :=
  Function.update counts key 0

/-- The list of severities returned by `n` sequential `trigger_event` calls
on the same key. -/
def severitiesOf (counts : String → ℕ) (event_type : String) (timer_name : Option String) :
    ℕ → List ℕ
  | 0 => []
  | n + 1 =>
    (triggerEvent counts event_type timer_name).1 ::
      severitiesOf (triggerEvent counts event_type timer_name).2 event_type timer_name n

/-! ### Timer manager (`timer_manager.TimerManager`)

Timestamps are rationals in seconds; `timedelta(minutes=m)` is `m * 60`.
The random draw of `random.randint(-v, v)` and each `get_accurate_time()`
read are oracle inputs of the step in which the source performs them. -/

/-- The `Timer` dataclass (src/timer_manager.py lines 9–17), minus the
callback, whose behaviour is modelled by the firing outcome oracle. -/
structure TimerT where
  name : String
  interval_minutes : ℤ
  last_triggered : Option ℚ
  is_active : Bool
  random_variance_minutes : ℤ
  next_trigger_time : Option ℚ
deriving DecidableEq

/-- The persisted `TimerState` record (src/persistent_storage.py lines 9–16);
the ISO-format datetime strings are modelled by the timestamps themselves,
since `isoformat`/`fromisoformat` round-trip exactly. -/
structure TimerStateRec where
  name : String
  last_triggered : Option ℚ
  interval_minutes : ℤ
  random_variance_minutes : ℤ
  is_active : Bool
  next_trigger_time : Option ℚ
deriving DecidableEq

/-- The record `_save_timer_states` writes for one timer
(src/timer_manager.py lines 216–229). -/
def saveTimerRec (t : TimerT) : TimerStateRec :=
  ⟨t.name, t.last_triggered, t.interval_minutes, t.random_variance_minutes,
   t.is_active, t.next_trigger_time⟩

/-- The mutable state of a `TimerManager` (src/timer_manager.py lines 19–26)
together with the on-disk timer-state file it saves to and loads from. -/
structure ManagerState where
  timers : String → Option TimerT
  min_gap_minutes : ℤ
  last_any_timer : Option ℚ
  store : String → Option TimerStateRec

/-- `_calculate_next_trigger` (src/timer_manager.py lines 94–105): when
`random_variance_minutes > 0` the drawn variance `v` is added and the result
clamped to a minimum of 1 minute; otherwise the bare interval is used, with
no clamp. -/
def calculateNextTrigger (t : TimerT) (v : ℤ) (current_time : ℚ) : ℚ :=
  if 0 < t.random_variance_minutes then
    current_time + ((max 1 (t.interval_minutes + v) : ℤ) : ℚ) * 60
  else
    current_time + (t.interval_minutes : ℚ) * 60

/-- `_should_trigger_timer` (src/timer_manager.py lines 107–120): inactive
timers and timers without a `next_trigger_time` never fire; a timer is
blocked while `now - last_any_timer < min_gap_minutes * 60` seconds;
otherwise it fires iff `now ≥ next_trigger_time`. -/
def shouldTriggerTimer (gap : ℤ) (lastAny : Option ℚ) (t : TimerT) (now : ℚ) : Bool :=
  if ¬ t.is_active then false
  else
    match t.next_trigger_time with
    | none => false
    | some ntt =>
      match lastAny with
      | some last => if now - last < (gap : ℚ) * 60 then false else decide (ntt ≤ now)
      | none => decide (ntt ≤ now)

/-- Re-save all timer states, as `_save_timer_states` does via
`storage.save_timer_states` (src/timer_manager.py lines 216–231). -/
def saveStates (timers : String → Option TimerT) : String → Option TimerStateRec :=
  fun n => (timers n).map saveTimerRec

/-- The state update shared verbatim by the success, timeout and cancellation
branches of `_timer_loop` (src/timer_manager.py lines 128–159):
`last_triggered = current_time`, `last_any_timer = current_time`,
`next_trigger_time = _calculate_next_trigger(timer, current_time)`, then
`_save_timer_states()`.  Returns the recorded firing timestamp. -/
def fireUpdate (st : ManagerState) (name : String) (t : TimerT) (current_time : ℚ)
    (v : ℤ) : ManagerState × Option ℚ :=
  let t' := { t with last_triggered := some current_time,
                     next_trigger_time := some (calculateNextTrigger t v current_time) }
  let timers' := fun n => if n = name then some t' else st.timers n
  ({ st with timers := timers', last_any_timer := some current_time,
             store := saveStates timers' }, some current_time)

/-- The four ways one `_timer_loop` callback invocation can end
(src/timer_manager.py lines 132–162): normal return, `asyncio.TimeoutError`,
`asyncio.CancelledError`, or any other exception. -/
inductive CallbackOutcome
  | success
  | timeout
  | cancelled
  | error
deriving DecidableEq

/-- One iteration of the `for timer in self.timers.values()` body of
`_timer_loop` (src/timer_manager.py lines 125–162) for the named timer:
check `_should_trigger_timer` at clock read `nowGuard`; if due, run the
callback, and on success/timeout/cancellation apply `fireUpdate` at the
branch's `get_accurate_time()` read `current_time`, while an unexpected
exception changes nothing. -/
def fireStep (st : ManagerState) (name : String) (nowGuard current_time : ℚ) (v : ℤ)
    (out : CallbackOutcome) : ManagerState × Option ℚ :=
  match st.timers name with
  | none => (st, none)
  | some t =>
    if shouldTriggerTimer st.min_gap_minutes st.last_any_timer t nowGuard then
      match out with
      | .success => fireUpdate st name t current_time v
      | .timeout => fireUpdate st name t current_time v
      | .cancelled => fireUpdate st name t current_time v
      | .error => (st, none)
    else (st, none)

/-- `add_timer` (src/timer_manager.py lines 28–69): look up saved state for
the name; restore `last_triggered`, `is_active` and (when present)
`next_trigger_time` from it, else compute a fresh `next_trigger_time` from
`now`; install the timer and save all states.  Parse failures of the saved
ISO strings cannot occur in the model, where serialisation is exact. -/
def addTimer (st : ManagerState) (name : String) (interval_minutes : ℤ)
    (random_variance_minutes : ℤ) (now : ℚ) (v : ℤ) : ManagerState :=
  let base : TimerT :=
    { name := name, interval_minutes := interval_minutes, last_triggered := none,
      is_active := true, random_variance_minutes := random_variance_minutes,
      next_trigger_time := none }
  let timer : TimerT :=
    match st.store name with
    | some saved =>
      let restored := { base with last_triggered := saved.last_triggered,
                                  is_active := saved.is_active }
      match saved.next_trigger_time with
      | some ntt => { restored with next_trigger_time := some ntt }
      | none => { restored with
                    next_trigger_time := some (calculateNextTrigger restored v now) }
    | none => { base with next_trigger_time := some (calculateNextTrigger base v now) }
  let timers' := fun n => if n = name then some timer else st.timers n
  { st with timers := timers', store := saveStates timers' }

/-- `remove_timer` (src/timer_manager.py lines 71–74). -/
def removeTimer (st : ManagerState) (name : String) : ManagerState :=
  { st with timers := fun n => if n = name then none else st.timers n }

/-- `activate_timer` (src/timer_manager.py lines 76–79); does not save. -/
def activateTimer (st : ManagerState) (name : String) : ManagerState :=
  match st.timers name with
  | none => st
  | some t =>
    { st with timers := fun n => if n = name then some { t with is_active := true }
                                 else st.timers n }

/-- `deactivate_timer` (src/timer_manager.py lines 81–84); does not save. -/
def deactivateTimer (st : ManagerState) (name : String) : ManagerState :=
  match st.timers name with
  | none => st
  | some t =>
    { st with timers := fun n => if n = name then some { t with is_active := false }
                                 else st.timers n }

/-- `reset_timer` (src/timer_manager.py lines 86–92): clear `last_triggered`,
recompute `next_trigger_time` from `now`, save all states.  The shared
`last_any_timer` is not touched. -/
def resetTimer (st : ManagerState) (name : String) (now : ℚ) (v : ℤ) : ManagerState :=
  match st.timers name with
  | none => st
  | some t =>
    let t' := { t with last_triggered := none }
    let t'' := { t' with next_trigger_time := some (calculateNextTrigger t' v now) }
    let timers' := fun n => if n = name then some t'' else st.timers n
    { st with timers := timers', store := saveStates timers' }

/-- The externally observable actions on a `TimerManager`, each carrying the
clock reads and random draw the source performs while handling it. -/
inductive ManagerAct
  | tick (name : String) (nowGuard current_time : ℚ) (v : ℤ) (out : CallbackOutcome)
  | add (name : String) (interval_minutes random_variance_minutes : ℤ) (now : ℚ) (v : ℤ)
  | remove (name : String)
  | activate (name : String)
  | deactivate (name : String)
  | reset (name : String) (now : ℚ) (v : ℤ)

/-- Apply one action; the second component is the recorded firing timestamp
when the action fired a timer (success, timeout or cancellation). -/
def stepAct (st : ManagerState) : ManagerAct → ManagerState × Option ℚ
  | .tick name g c v out => fireStep st name g c v out
  | .add name interval var now v => (addTimer st name interval var now v, none)
  | .remove name => (removeTimer st name, none)
  | .activate name => (activateTimer st name, none)
  | .deactivate name => (deactivateTimer st name, none)
  | .reset name now v => (resetTimer st name now v, none)

/-- Clock wellformedness of one action: within a tick, the due-check clock
read precedes the branch's `current_time` read (the clock is monotone). -/
def actWF : ManagerAct → Bool
  | .tick _ g c _ _ => decide (g ≤ c)
  | _ => true

/-- Run a list of actions, collecting the recorded firing timestamps in
order. -/
def runTrace (st : ManagerState) : List ManagerAct → ManagerState × List ℚ
  | [] => (st, [])
  | a :: tr =>
    let s := stepAct st a
    let r := runTrace s.1 tr
    (r.1, s.2.toList ++ r.2)

/-- Sample timer used by concrete witnesses. -/
def timerA : TimerT :=
  { name := "a", interval_minutes := 45, last_triggered := none, is_active := true,
    random_variance_minutes := 0, next_trigger_time := some 0 }

/-- Second sample timer used by concrete witnesses. -/
def timerB : TimerT :=
  { name := "b", interval_minutes := 45, last_triggered := none, is_active := true,
    random_variance_minutes := 0, next_trigger_time := some 0 }

/-- Sample manager state with two due timers, `min_gap_minutes = 1`. -/
def stA : ManagerState :=
  { timers := fun n => if n = "a" then some timerA else if n = "b" then some timerB else none,
    min_gap_minutes := 1, last_any_timer := none, store := fun _ => none }

/-- Sample trace: timer `a` fires at `t = 0`; timer `b` is due at `t = 30`
but blocked by the global gap; timer `b` fires at `t = 90`. -/
def trA : List ManagerAct :=
  [.tick "a" 0 0 0 .success, .tick "b" 30 35 0 .timeout, .tick "b" 90 90 0 .success]

/-- Invariant: every registered timer has a defined `next_trigger_time`. -/
def allNextDefined (st : ManagerState) : Prop :=
  ∀ n t, st.timers n = some t → t.next_trigger_time.isSome = true

/-- Timer with `interval_minutes = 0` and no jitter, used to refute the
unconditional 1-minute clamp. -/
def timerZ : TimerT :=
  { name := "z", interval_minutes := 0, last_triggered := none, is_active := true,
    random_variance_minutes := 0, next_trigger_time := some 0 }

/-- Manager state holding only `timerZ`. -/
def stZ : ManagerState :=
  { timers := fun n => if n = "z" then some timerZ else none,
    min_gap_minutes := 0, last_any_timer := none, store := fun _ => none }

/-- The freshly constructed timer `add_timer` builds before state restore
(src/timer_manager.py lines 38-43). -/
def freshTimer (name : String) (interval var : ℤ) : TimerT :=
  { name := name, interval_minutes := interval, last_triggered := none,
    is_active := true, random_variance_minutes := var, next_trigger_time := none }

/-- Stale persisted record: its `next_trigger_time` (second `0`) is long in
the past by the time the timer is re-registered. -/
def staleRec : TimerStateRec :=
  { name := "s", last_triggered := none, interval_minutes := 45,
    random_variance_minutes := 0, is_active := true, next_trigger_time := some 0 }

/-- Manager state whose store holds only `staleRec`. -/
def stStale : ManagerState :=
  { timers := fun _ => none, min_gap_minutes := 1, last_any_timer := none,
    store := fun n => if n = "s" then some staleRec else none }

/-- A fresh manager state whose store is the snapshot `_save_timer_states`
would write for `stA`. -/
def stReload : ManagerState :=
  { timers := fun _ => none, min_gap_minutes := 1, last_any_timer := none,
    store := saveStates stA.timers }

/-! ### Lemmas and claim theorems -/

lemma truncQ_intCast (n : ℤ) : truncQ (n : ℚ) = n := by
  unfold truncQ
  split_ifs <;> simp

lemma truncQ_mono {q r : ℚ} (h : q ≤ r) : truncQ q ≤ truncQ r := by
  unfold truncQ
  split_ifs with hq hr
  · exact Int.ceil_le_ceil h
  · have h1 : ⌈q⌉ ≤ (0 : ℤ) := Int.ceil_le.mpr (by exact_mod_cast hq.le)
    have h2 : (0 : ℤ) ≤ ⌊r⌋ := Int.floor_nonneg.mpr (not_lt.mp hr)
    omega
  · exact absurd (h.trans_lt ‹r < 0›) ‹¬q < 0›
  · exact Int.floor_le_floor h

lemma rawInterval_anti {base limit : ℤ} (h : limit ≤ base) {l1 l2 : ℚ} (hl : l1 ≤ l2) :
    rawInterval base limit l2 ≤ rawInterval base limit l1 := by
  have hb : (limit : ℚ) ≤ (base : ℚ) := by exact_mod_cast h
  unfold rawInterval
  split_ifs with h1 h2 h3 h4 h5 h6 h7 h8 <;> push_neg at * <;> nlinarith

lemma rawInterval_le_base {base limit : ℤ} (h : limit ≤ base) (level : ℚ) :
    rawInterval base limit level ≤ (base : ℚ) := by
  have hb : (limit : ℚ) ≤ (base : ℚ) := by exact_mod_cast h
  unfold rawInterval
  split_ifs with h1 h2 <;> push_neg at * <;> nlinarith

lemma limit_le_rawInterval {base limit : ℤ} (h : limit ≤ base) (level : ℚ) :
    (limit : ℚ) ≤ rawInterval base limit level := by
  have hb : (limit : ℚ) ≤ (base : ℚ) := by exact_mod_cast h
  unfold rawInterval
  split_ifs with h1 h2 <;> push_neg at * <;> nlinarith

lemma rawInterval_eq_clamped (base limit : ℤ) (level : ℚ) :
    rawInterval base limit level =
      (base : ℚ) - ((base : ℚ) - (limit : ℚ)) * (max 0 (min 3 level)) / 3 := by
  unfold rawInterval
  split_ifs with h1 h2
  · rw [min_eq_right (by linarith : level ≤ (3 : ℚ)),
      max_eq_left (by linarith : level ≤ (0 : ℚ))]
    ring
  · rw [min_eq_left h2, max_eq_right (by norm_num : (0 : ℚ) ≤ 3)]
    ring
  · push_neg at h1 h2
    rw [min_eq_right h2.le, max_eq_right h1.le]
    ring

/-- Claim C3: the interval policy is monotone non-increasing in the level
argument; any `level ≤ 0` yields `base` and any `level ≥ level_max` (the
source's hard-coded `3.0`) yields `limit`, assuming the configured
`limit ≤ base`. -/
theorem interval_policy_monotone (base limit : ℤ) (h : limit ≤ base) :
    (∀ l1 l2 : ℚ, l1 ≤ l2 →
      dynamicReminderInterval base limit l2 ≤ dynamicReminderInterval base limit l1) ∧
    (∀ level : ℚ, level ≤ 0 → dynamicReminderInterval base limit level = base) ∧
    (∀ level : ℚ, 3 ≤ level → dynamicReminderInterval base limit level = limit) := by
  refine ⟨fun l1 l2 hl => ?_, fun level hlev => ?_, fun level hlev => ?_⟩
  · exact max_le_max le_rfl (min_le_min le_rfl (truncQ_mono (rawInterval_anti h hl)))
  · rw [dynamicReminderInterval, rawInterval, if_pos hlev, truncQ_intCast, min_self,
      max_eq_right h]
  · have h0 : ¬ level ≤ 0 := by linarith
    rw [dynamicReminderInterval, rawInterval, if_neg h0, if_pos hlev, truncQ_intCast,
      min_eq_right h, max_self]

theorem interval_policy_monotone_witness :
    dynamicReminderInterval 45 10 2 ≤ dynamicReminderInterval 45 10 1 ∧
    dynamicReminderInterval 45 10 (-1) = 45 ∧
    dynamicReminderInterval 45 10 4 = 10 :=
  ⟨(interval_policy_monotone 45 10 (by norm_num)).1 1 2 (by norm_num),
   (interval_policy_monotone 45 10 (by norm_num)).2.1 (-1) (by norm_num),
   (interval_policy_monotone 45 10 (by norm_num)).2.2 4 (by norm_num)⟩

/-- Claim C4, counterexample: at `base = 45`, `limit = 10`, `level = 4/5`
the source truncates `45 − 35 × (4/5)/3 = 107/3 ≈ 35.67` to `35`, while the
spec's round-to-nearest formula yields `36`. -/
theorem interval_policy_rounding_counterexample :
    dynamicReminderInterval 45 10 (4 / 5) = 35 ∧
    computeIntervalSpecRound (4 / 5) 45 10 3 = 36 :=
  ⟨by norm_num [dynamicReminderInterval, rawInterval, truncQ],
   by norm_num [computeIntervalSpecRound, round_eq]⟩

/-- Claim C4 (amended): for every `level`, `base`, `limit`, the interval
policy returns `base − (base − limit) × clamp(level, 0, 3)/3` truncated
toward zero (not rounded to nearest) and clamped to `[limit, base]`, with
`level_max` hard-coded to `3` in the source. -/
theorem interval_policy_formula (base limit : ℤ) (level : ℚ) :
    dynamicReminderInterval base limit level = computeIntervalTrunc level base limit 3 := by
  rw [dynamicReminderInterval, computeIntervalTrunc, rawInterval_eq_clamped]

/-- Claim C5: at `base = 45`, `limit = 10`, `level_max = 3.0`, `level = 1.5`
the interval policy returns `27` minutes (the exact interpolant is `27.5`,
truncated to `27`). -/
theorem interval_policy_scenario : dynamicReminderInterval 45 10 (3 / 2) = 27 := by
  norm_num [dynamicReminderInterval, rawInterval, truncQ]

lemma severitiesOf_eq (et : String) (tn : Option String) :
    ∀ (n : ℕ) (counts : String → ℕ),
      severitiesOf counts et tn n =
        (List.range n).map (fun i => counts (countKey et tn) + 1 + i)
  | 0, _ => rfl
  | n + 1, counts => by
    rw [severitiesOf, severitiesOf_eq et tn n, List.range_succ_eq_map]
    simp only [triggerEvent, Function.update_same, List.map_cons, List.map_map]
    congr 1
    exact List.map_congr_left fun i _ => by simp [Function.comp]; omega

/-- Claim C2: for every key (timer-scoped or global), `N` sequential
increments with no intervening reset return severities exactly `1, …, N`
(starting from a zero count for that key), and after the key's count is
reset to zero the next increment returns `1`. -/
theorem severity_counter_sequential (counts : String → ℕ) (event_type : String)
    (timer_name : Option String) (n : ℕ)
    (h : counts (countKey event_type timer_name) = 0) :
    severitiesOf counts event_type timer_name n = (List.range n).map (fun i => i + 1) ∧
    ∀ counts' : String → ℕ,
      (triggerEvent (resetCount counts' (countKey event_type timer_name))
        event_type timer_name).1 = 1 := by
  constructor
  · rw [severitiesOf_eq, h]
    exact List.map_congr_left fun i _ => by omega
  · intro counts'
    simp [triggerEvent, resetCount, Function.update_same]

theorem severity_counter_sequential_witness :
    severitiesOf (fun _ => 0) "empty" (some "empty_reminder") 3 = [1, 2, 3] := by
  have h := (severity_counter_sequential (fun _ => 0) "empty" (some "empty_reminder") 3 rfl).1
  rw [h]
  rfl

lemma shouldTriggerTimer_iff (gap : ℤ) (lastAny : Option ℚ) (t : TimerT) (now : ℚ) :
    shouldTriggerTimer gap lastAny t now = true ↔
      t.is_active = true ∧
      (∃ ntt, t.next_trigger_time = some ntt ∧ ntt ≤ now) ∧
      ∀ t0, lastAny = some t0 → t0 + (gap : ℚ) * 60 ≤ now := by
  rcases t with ⟨nm, iv, lt, act, var, ntt⟩
  cases act <;> cases ntt <;> cases lastAny
  case false.none.none => simp [shouldTriggerTimer]
  case false.none.some t0 => simp [shouldTriggerTimer]
  case false.some.none n => simp [shouldTriggerTimer]
  case false.some.some n t0 => simp [shouldTriggerTimer]
  case true.none.none => simp [shouldTriggerTimer]
  case true.none.some t0 => simp [shouldTriggerTimer]
  case true.some.none n => simp [shouldTriggerTimer]
  case true.some.some n t0 =>
    simp only [shouldTriggerTimer, not_true, if_false, Bool.not_eq_true]
    split_ifs with hc
    · constructor
      · intro h
        cases h
      · rintro ⟨-, -, hgap⟩
        have := hgap t0 rfl
        linarith
    · push_neg at hc
      simp only [decide_eq_true_eq, Option.some.injEq]
      constructor
      · intro h
        refine ⟨trivial, ⟨n, rfl, h⟩, ?_⟩
        intro t0' h'
        cases h'
        linarith
      · rintro ⟨-, ⟨ntt, hn, hle⟩, -⟩
        cases hn
        exact hle

lemma shouldTriggerTimer_blocked (gap : ℤ) (t0 : ℚ) (t : TimerT) (now : ℚ)
    (hblock : now - t0 < (gap : ℚ) * 60) :
    shouldTriggerTimer gap (some t0) t now = false := by
  cases hb : shouldTriggerTimer gap (some t0) t now with
  | false => rfl
  | true =>
    have h3 := ((shouldTriggerTimer_iff gap (some t0) t now).mp hb).2.2 t0 rfl
    linarith

lemma fireStep_none {st : ManagerState} {name : String} {g c : ℚ} {v : ℤ}
    {out : CallbackOutcome} {st' : ManagerState}
    (h : fireStep st name g c v out = (st', none)) : st' = st := by
  unfold fireStep at h
  split at h
  · injection h with h1 h2
    exact h1.symm
  · split at h
    · cases out
      case error =>
        injection h with h1 h2
        exact h1.symm
      all_goals
        simp only [fireUpdate] at h
        injection h with h1 h2
        exact Option.noConfusion h2
    · injection h with h1 h2
      exact h1.symm

lemma fireStep_some {st : ManagerState} {name : String} {g c : ℚ} {v : ℤ}
    {out : CallbackOutcome} {st' : ManagerState} {tf : ℚ}
    (h : fireStep st name g c v out = (st', some tf)) :
    tf = c ∧ ∃ t, st.timers name = some t ∧
      shouldTriggerTimer st.min_gap_minutes st.last_any_timer t g = true ∧
      st' = (fireUpdate st name t c v).1 := by
  unfold fireStep at h
  split at h
  · injection h with h1 h2
    exact Option.noConfusion h2
  next t ht =>
    split at h
    next hdue =>
      cases out
      case error =>
        injection h with h1 h2
        exact Option.noConfusion h2
      all_goals
        simp only [fireUpdate] at h
        injection h with h1 h2
        injection h2 with h3
        exact ⟨h3.symm, t, ht, hdue, h1.symm⟩
    next hdue =>
      injection h with h1 h2
      exact Option.noConfusion h2

lemma stepAct_min_gap (st : ManagerState) (a : ManagerAct) :
    (stepAct st a).1.min_gap_minutes = st.min_gap_minutes := by
  cases a with
  | tick name g c v out =>
    rcases he : stepAct st (.tick name g c v out) with ⟨st', e⟩
    cases e with
    | none => rw [fireStep_none he]
    | some tf =>
      obtain ⟨-, t, -, -, hst⟩ := fireStep_some he
      rw [hst]
      rfl
  | add name interval var now v => rfl
  | remove name => rfl
  | activate name =>
    show (activateTimer st name).min_gap_minutes = _
    unfold activateTimer
    split <;> rfl
  | deactivate name =>
    show (deactivateTimer st name).min_gap_minutes = _
    unfold deactivateTimer
    split <;> rfl
  | reset name now v =>
    show (resetTimer st name now v).min_gap_minutes = _
    unfold resetTimer
    split <;> rfl

lemma stepAct_none_lastAny {st : ManagerState} {a : ManagerAct} {st' : ManagerState}
    (h : stepAct st a = (st', none)) : st'.last_any_timer = st.last_any_timer := by
  cases a with
  | tick name g c v out => rw [fireStep_none h]
  | add name interval var now v =>
    injection h with h1 h2
    rw [← h1]
    rfl
  | remove name =>
    injection h with h1 h2
    rw [← h1]
    rfl
  | activate name =>
    injection h with h1 h2
    rw [← h1]
    show (activateTimer st name).last_any_timer = _
    unfold activateTimer
    split <;> rfl
  | deactivate name =>
    injection h with h1 h2
    rw [← h1]
    show (deactivateTimer st name).last_any_timer = _
    unfold deactivateTimer
    split <;> rfl
  | reset name now v =>
    injection h with h1 h2
    rw [← h1]
    show (resetTimer st name now v).last_any_timer = _
    unfold resetTimer
    split <;> rfl

lemma stepAct_some_lastAny {st : ManagerState} {a : ManagerAct} {st' : ManagerState} {tf : ℚ}
    (h : stepAct st a = (st', some tf)) :
    st'.last_any_timer = some tf ∧
    (actWF a = true → ∀ t0, st.last_any_timer = some t0 →
      t0 + (st.min_gap_minutes : ℚ) * 60 ≤ tf) := by
  cases a with
  | tick name g c v out =>
    obtain ⟨htf, t, -, hdue, hst⟩ := fireStep_some h
    subst htf
    constructor
    · rw [hst]
      rfl
    · intro hwf t0 hla
      have hg : t0 + (st.min_gap_minutes : ℚ) * 60 ≤ g :=
        ((shouldTriggerTimer_iff _ _ _ _).mp hdue).2.2 t0 hla
      have hgc : g ≤ tf := of_decide_eq_true hwf
      linarith
  | add name interval var now v => exact Option.noConfusion (Prod.mk.injEq .. ▸ h).2
  | remove name => exact Option.noConfusion (Prod.mk.injEq .. ▸ h).2
  | activate name => exact Option.noConfusion (Prod.mk.injEq .. ▸ h).2
  | deactivate name => exact Option.noConfusion (Prod.mk.injEq .. ▸ h).2
  | reset name now v => exact Option.noConfusion (Prod.mk.injEq .. ▸ h).2

lemma runTrace_gap (gap : ℤ) (hgap : 0 ≤ gap) (tr : List ManagerAct) :
    ∀ st : ManagerState, st.min_gap_minutes = gap → tr.all actWF = true →
      (runTrace st tr).2.Pairwise (fun a b => a + (gap : ℚ) * 60 ≤ b) ∧
      ∀ t0, st.last_any_timer = some t0 →
        ∀ x ∈ (runTrace st tr).2, t0 + (gap : ℚ) * 60 ≤ x := by
  induction tr with
  | nil =>
    intro st hg hall
    exact ⟨List.Pairwise.nil, by intro t0 h x hx; cases hx⟩
  | cons a tr ih =>
    intro st hg hall
    rw [List.all_cons, Bool.and_eq_true] at hall
    obtain ⟨ha, htr⟩ := hall
    rcases hs : stepAct st a with ⟨st1, e⟩
    have hg1 : st1.min_gap_minutes = gap := by
      have := stepAct_min_gap st a
      rw [hs] at this
      rw [← hg, this]
    have hrun : runTrace st (a :: tr) =
        ((runTrace st1 tr).1, e.toList ++ (runTrace st1 tr).2) := by
      simp only [runTrace, hs]
    cases e with
    | none =>
      have hla : st1.last_any_timer = st.last_any_timer := stepAct_none_lastAny hs
      have IH := ih st1 hg1 htr
      rw [hrun]
      refine ⟨IH.1, ?_⟩
      intro t0 h0 x hx
      exact IH.2 t0 (hla.trans h0) x (by simpa using hx)
    | some tf =>
      obtain ⟨hla1, hprev⟩ := stepAct_some_lastAny hs
      have IH := ih st1 hg1 htr
      have hhead : ∀ x ∈ (runTrace st1 tr).2, tf + (gap : ℚ) * 60 ≤ x :=
        IH.2 tf hla1
      rw [hrun]
      constructor
      · exact List.pairwise_cons.mpr ⟨hhead, IH.1⟩
      · intro t0 h0 x hx
        rcases List.mem_cons.mp (by simpa using hx) with hx1 | hx2
        · subst hx1
          have := hprev ha t0 h0
          rw [hg] at this
          exact this
        · have h1 : t0 + (gap : ℚ) * 60 ≤ tf := by
            have := hprev ha t0 h0
            rw [hg] at this
            exact this
          have h2 := hhead x hx2
          have hgq : (0 : ℚ) ≤ (gap : ℚ) * 60 := by positivity
          linarith

/-- Claim C1: with a nonnegative `min_gap_minutes` and a monotone clock, the
recorded firing timestamps of any run are pairwise at least
`min_gap_minutes * 60` seconds apart, across all timers; a timer whose
`next_trigger_time` has passed is not fired while `now - last_any_timer <
min_gap_minutes * 60`; and every firing (success, timeout or cancellation)
sets the shared `last_any_timer` to its recorded timestamp. -/
theorem global_min_gap (st : ManagerState) (tr : List ManagerAct)
    (hgap : 0 ≤ st.min_gap_minutes) (hwf : tr.all actWF = true) :
    (runTrace st tr).2.Pairwise
      (fun a b => a + (st.min_gap_minutes : ℚ) * 60 ≤ b) ∧
    (∀ (gap : ℤ) (t0 : ℚ) (t : TimerT) (now : ℚ),
      now - t0 < (gap : ℚ) * 60 →
      shouldTriggerTimer gap (some t0) t now = false) ∧
    ∀ (st1 : ManagerState) (name : String) (g c : ℚ) (v : ℤ)
      (out : CallbackOutcome) (st2 : ManagerState) (tf : ℚ),
      fireStep st1 name g c v out = (st2, some tf) →
      st2.last_any_timer = some tf := by
  refine ⟨(runTrace_gap st.min_gap_minutes hgap tr st rfl hwf).1,
    shouldTriggerTimer_blocked, ?_⟩
  intro st1 name g c v out st2 tf h
  obtain ⟨htf, t, -, -, hst⟩ := fireStep_some h
  subst htf
  rw [hst]
  rfl

theorem global_min_gap_witness :
    (runTrace stA trA).2 = [0, 90] ∧
    (runTrace stA trA).2.Pairwise
      (fun a b => a + ((stA.min_gap_minutes : ℤ) : ℚ) * 60 ≤ b) :=
  ⟨by simp [runTrace, stepAct, fireStep, shouldTriggerTimer, fireUpdate,
        calculateNextTrigger, saveStates, saveTimerRec, stA, trA, timerA, timerB,
        show ¬((60 : ℚ) ≤ 30) from by norm_num,
        show ((35 : ℚ) + 45 * 60 = 2735) from by norm_num,
        show ¬((2700 : ℚ) ≤ 30) from by norm_num,
        show ¬((2700 : ℚ) ≤ 90) from by norm_num,
        show ((60 : ℚ) ≤ 90) from by norm_num,
        show ((90 : ℚ) + 45 * 60 = 2790) from by norm_num],
   (global_min_gap stA trA (by decide) (by decide)).1⟩

/-- Claim C7: when a due timer's callback completes, times out or is
cancelled, the three outcomes yield identical states: `last_triggered` and
`last_any_timer` become the recorded time, `next_trigger_time` is recomputed
by `_calculate_next_trigger`, and the timer's state is persisted; an
unexpected exception leaves the whole state unchanged, and the timer is
still due at any later instant. -/
theorem firing_outcomes (st : ManagerState) (name : String) (t : TimerT) (g c : ℚ) (v : ℤ)
    (ht : st.timers name = some t)
    (hdue : shouldTriggerTimer st.min_gap_minutes st.last_any_timer t g = true) :
    (fireStep st name g c v .success = fireStep st name g c v .timeout ∧
     fireStep st name g c v .success = fireStep st name g c v .cancelled) ∧
    ((fireStep st name g c v .success).1.timers name =
      some ({ t with
        last_triggered := some c,
        next_trigger_time := some (calculateNextTrigger t v c) }) ∧
     (fireStep st name g c v .success).1.last_any_timer = some c ∧
     (fireStep st name g c v .success).1.store name =
      some (saveTimerRec ({ t with
        last_triggered := some c,
        next_trigger_time := some (calculateNextTrigger t v c) })) ∧
     (fireStep st name g c v .success).2 = some c) ∧
    fireStep st name g c v .error = (st, none) ∧
    ∀ now2, g ≤ now2 →
      shouldTriggerTimer st.min_gap_minutes st.last_any_timer t now2 = true := by
  have hfs : ∀ out : CallbackOutcome, out ≠ .error →
      fireStep st name g c v out = fireUpdate st name t c v := by
    intro out hout
    unfold fireStep
    rw [ht]
    dsimp only
    rw [if_pos hdue]
    cases out
    · rfl
    · rfl
    · rfl
    · exact absurd rfl hout
  have herr : fireStep st name g c v .error = (st, none) := by
    unfold fireStep
    rw [ht]
    dsimp only
    rw [if_pos hdue]
  have hsucc := hfs .success (fun hh => CallbackOutcome.noConfusion hh)
  refine ⟨⟨?_, ?_⟩, ⟨?_, ?_, ?_, ?_⟩, herr, ?_⟩
  · rw [hsucc, hfs .timeout (fun hh => CallbackOutcome.noConfusion hh)]
  · rw [hsucc, hfs .cancelled (fun hh => CallbackOutcome.noConfusion hh)]
  · rw [hsucc]
    simp [fireUpdate]
  · rw [hsucc]
    rfl
  · rw [hsucc]
    simp [fireUpdate, saveStates]
  · rw [hsucc]
    rfl
  · intro now2 h2
    rw [shouldTriggerTimer_iff] at hdue ⊢
    obtain ⟨ha, ⟨n, hn, hle⟩, hg⟩ := hdue
    exact ⟨ha, ⟨n, hn, hle.trans h2⟩, fun t0 h0 => (hg t0 h0).trans h2⟩

theorem firing_outcomes_witness :
    fireStep stA "a" 0 5 0 .success = fireStep stA "a" 0 5 0 .timeout ∧
    (fireStep stA "a" 0 5 0 .success).1.last_any_timer = some 5 :=
  ⟨((firing_outcomes stA "a" timerA 0 5 0 (by decide) (by decide)).1).1,
   ((firing_outcomes stA "a" timerA 0 5 0 (by decide) (by decide)).2.1).2.1⟩

lemma stepAct_allNextDefined {st : ManagerState} (h : allNextDefined st) (a : ManagerAct) :
    allNextDefined (stepAct st a).1 := by
  cases a with
  | tick name g c v out =>
    rcases he : stepAct st (.tick name g c v out) with ⟨st', e⟩
    have hgoal : allNextDefined st' := by
      cases e with
      | none => rw [fireStep_none he]; exact h
      | some tf =>
        obtain ⟨-, t, ht, -, hst⟩ := fireStep_some he
        rw [hst]
        intro n t2 h2
        simp only [fireUpdate] at h2
        by_cases hn : n = name
        · rw [if_pos hn] at h2
          injection h2 with h3
          rw [← h3]
          rfl
        · rw [if_neg hn] at h2
          exact h n t2 h2
    exact hgoal
  | add name interval var now v =>
    intro n t2 h2
    simp only [stepAct, addTimer] at h2
    by_cases hn : n = name
    · rw [if_pos hn] at h2
      rcases hsv : st.store name with - | saved <;> rw [hsv] at h2 <;> dsimp only at h2
      · injection h2 with h3
        rw [← h3]
        rfl
      · rcases hsn : saved.next_trigger_time with - | nttv <;> rw [hsn] at h2 <;>
            dsimp only at h2 <;> injection h2 with h3 <;> rw [← h3] <;> rfl
    · rw [if_neg hn] at h2
      exact h n t2 h2
  | remove name =>
    intro n t2 h2
    simp only [stepAct, removeTimer] at h2
    by_cases hn : n = name
    · rw [if_pos hn] at h2
      exact Option.noConfusion h2
    · rw [if_neg hn] at h2
      exact h n t2 h2
  | activate name =>
    intro n t2 h2
    simp only [stepAct, activateTimer] at h2
    rcases ht : st.timers name with - | t <;> rw [ht] at h2 <;> dsimp only at h2
    · exact h n t2 h2
    · by_cases hn : n = name
      · rw [if_pos hn] at h2
        injection h2 with h3
        rw [← h3]
        exact h name t ht
      · rw [if_neg hn] at h2
        exact h n t2 h2
  | deactivate name =>
    intro n t2 h2
    simp only [stepAct, deactivateTimer] at h2
    rcases ht : st.timers name with - | t <;> rw [ht] at h2 <;> dsimp only at h2
    · exact h n t2 h2
    · by_cases hn : n = name
      · rw [if_pos hn] at h2
        injection h2 with h3
        rw [← h3]
        exact h name t ht
      · rw [if_neg hn] at h2
        exact h n t2 h2
  | reset name now v =>
    intro n t2 h2
    simp only [stepAct, resetTimer] at h2
    rcases ht : st.timers name with - | t <;> rw [ht] at h2 <;> dsimp only at h2
    · exact h n t2 h2
    · by_cases hn : n = name
      · rw [if_pos hn] at h2
        injection h2 with h3
        rw [← h3]
        rfl
      · rw [if_neg hn] at h2
        exact h n t2 h2

lemma runTrace_allNextDefined {st : ManagerState} (h : allNextDefined st)
    (tr : List ManagerAct) : allNextDefined (runTrace st tr).1 := by
  induction tr generalizing st with
  | nil => exact h
  | cons a tr ih =>
    simp only [runTrace]
    exact ih (stepAct_allNextDefined h a)

lemma calculateNextTrigger_ge {t : TimerT} (hi : 1 ≤ t.interval_minutes) (v : ℤ) (c : ℚ) :
    c + 60 ≤ calculateNextTrigger t v c := by
  unfold calculateNextTrigger
  split_ifs with hv
  · have h1 : (1 : ℤ) ≤ max 1 (t.interval_minutes + v) := le_max_left _ _
    have h2 : (1 : ℚ) ≤ ((max 1 (t.interval_minutes + v) : ℤ) : ℚ) := by exact_mod_cast h1
    nlinarith
  · have h2 : (1 : ℚ) ≤ (t.interval_minutes : ℚ) := by exact_mod_cast hi
    nlinarith

lemma calculateNextTrigger_le {t : TimerT} {v : ℤ} (hi : 1 ≤ t.interval_minutes)
    (hv0 : 0 ≤ t.random_variance_minutes) (hhi : v ≤ t.random_variance_minutes) (c : ℚ) :
    calculateNextTrigger t v c ≤
      c + ((t.interval_minutes : ℚ) + (t.random_variance_minutes : ℚ)) * 60 := by
  unfold calculateNextTrigger
  split_ifs with hv
  · have h1 : max 1 (t.interval_minutes + v) ≤
        t.interval_minutes + t.random_variance_minutes := by
      apply max_le <;> omega
    have h2 : ((max 1 (t.interval_minutes + v) : ℤ) : ℚ) ≤
        (t.interval_minutes : ℚ) + (t.random_variance_minutes : ℚ) := by exact_mod_cast h1
    nlinarith
  · have h2 : (0 : ℚ) ≤ (t.random_variance_minutes : ℚ) := by exact_mod_cast hv0
    nlinarith

/-- Claim C8 (amended): every reachable state keeps `next_trigger_time`
defined for every registered timer, and a firing of a timer whose
`interval_minutes ≥ 1` strictly advances its `next_trigger_time`, to at
least the firing time plus one minute.  (The source's 1-minute clamp is
applied only when `random_variance_minutes > 0`; for a jitter-free timer the
bound needs `interval_minutes ≥ 1`.) -/
theorem next_trigger_defined_and_advances (st : ManagerState) (tr : List ManagerAct)
    (hinv : allNextDefined st) :
    allNextDefined (runTrace st tr).1 ∧
    ∀ (st1 : ManagerState) (name : String) (t : TimerT) (o g c : ℚ) (v : ℤ)
      (out : CallbackOutcome) (st2 : ManagerState) (tf : ℚ),
      st1.timers name = some t → t.next_trigger_time = some o →
      1 ≤ t.interval_minutes → g ≤ c →
      fireStep st1 name g c v out = (st2, some tf) →
      ∃ t2 n2, st2.timers name = some t2 ∧ t2.next_trigger_time = some n2 ∧
        tf + 60 ≤ n2 ∧ o < n2 := by
  refine ⟨runTrace_allNextDefined hinv tr, ?_⟩
  intro st1 name t o g c v out st2 tf ht ho hi hgc hfire
  obtain ⟨htf, t', ht', hdue, hst⟩ := fireStep_some hfire
  rw [ht] at ht'
  injection ht' with he
  subst he
  subst htf
  refine ⟨({ t with
      last_triggered := some tf,
      next_trigger_time := some (calculateNextTrigger t v tf) }),
    calculateNextTrigger t v tf, ?_, rfl, ?_, ?_⟩
  · rw [hst]
    simp [fireUpdate]
  · exact calculateNextTrigger_ge hi v tf
  · obtain ⟨-, ⟨ntt, hn, hle⟩, -⟩ := (shouldTriggerTimer_iff _ _ _ _).mp hdue
    rw [ho] at hn
    injection hn with he2
    subst he2
    have hadv := calculateNextTrigger_ge hi v tf
    linarith

lemma stA_allNextDefined : allNextDefined stA := by
  intro n t h
  unfold stA at h
  dsimp only at h
  split_ifs at h
  · injection h with he
    rw [← he]
    rfl
  · injection h with he
    rw [← he]
    rfl

theorem next_trigger_defined_and_advances_witness :
    allNextDefined (runTrace stA trA).1 :=
  (next_trigger_defined_and_advances stA trA stA_allNextDefined).1

/-- Claim C8, counterexample: a timer registered with `interval_minutes = 0`
and no jitter fires at time `0` and is rescheduled to `next_trigger_time =
0` again — the source's minimum-1-minute clamp is in the
`random_variance_minutes > 0` branch only, so `next_trigger_time` does not
strictly advance. -/
theorem fire_no_min_clamp_counterexample :
    (fireStep stZ "z" 0 0 0 .success).2 = some 0 ∧
    ((fireStep stZ "z" 0 0 0 .success).1.timers "z").map TimerT.next_trigger_time =
      some (some 0) ∧
    timerZ.next_trigger_time = some 0 := by
  refine ⟨?_, ?_, rfl⟩ <;>
    simp [fireStep, fireUpdate, shouldTriggerTimer, calculateNextTrigger, saveStates,
      stZ, timerZ]

/-- Claim C6 (amended): immediately after `register` for a name with no
usable persisted `next_trigger_time` (here: no saved state at all), with
`interval_minutes ≥ 1`, nonnegative jitter bound and the random draw within
it, the new timer satisfies `now < next_trigger_time ≤ now + (interval +
jitter) minutes`. -/
theorem register_fresh_bounds (st : ManagerState) (name : String)
    (interval var v : ℤ) (now : ℚ)
    (hfresh : st.store name = none) (hi : 1 ≤ interval) (hv0 : 0 ≤ var)
    (hhi : v ≤ var) :
    ∃ t n, (addTimer st name interval var now v).timers name = some t ∧
      t.next_trigger_time = some n ∧ now < n ∧
      n ≤ now + ((interval : ℚ) + (var : ℚ)) * 60 := by
  have hbase : (addTimer st name interval var now v).timers name =
      some ({ freshTimer name interval var with
        next_trigger_time :=
          some (calculateNextTrigger (freshTimer name interval var) v now) }) := by
    unfold addTimer freshTimer
    rw [hfresh]
    dsimp only
    rw [if_pos rfl]
  refine ⟨_, _, hbase, rfl, ?_, ?_⟩
  · have h60 : now + 60 ≤ calculateNextTrigger (freshTimer name interval var) v now :=
      calculateNextTrigger_ge hi v now
    linarith
  · have hle : calculateNextTrigger (freshTimer name interval var) v now ≤
        now + (((freshTimer name interval var).interval_minutes : ℚ) +
          ((freshTimer name interval var).random_variance_minutes : ℚ)) * 60 :=
      calculateNextTrigger_le hi hv0 hhi now
    exact hle

theorem register_fresh_bounds_witness :
    ∃ t n, (addTimer stA "c" 45 3 100 2).timers "c" = some t ∧
      t.next_trigger_time = some n ∧ (100 : ℚ) < n ∧
      n ≤ 100 + (((45 : ℤ) : ℚ) + ((3 : ℤ) : ℚ)) * 60 :=
  register_fresh_bounds stA "c" 45 3 2 100 rfl (by norm_num) (by norm_num) (by norm_num)

/-- Claim C6, counterexample: registering name `"s"` at `now = 1000` restores
the persisted `next_trigger_time = 0`, so `next_trigger_time > now` fails
when persisted state exists. -/
theorem register_restore_counterexample :
    ((addTimer stStale "s" 45 0 1000 0).timers "s").map TimerT.next_trigger_time =
      some (some 0) ∧ ¬ ((1000 : ℚ) < 0) := by
  constructor
  · simp [addTimer, stStale, staleRec]
  · norm_num

/-- Claim C9: re-registering a timer with identical parameters against the
store produced by `_save_timer_states` restores the same `is_active`, the
same `last_triggered` and the same `next_trigger_time` (exactly, hence to
the second), for every timer whose record has a saved `next_trigger_time`
(records always parse in this model, since ISO serialisation round-trips). -/
theorem save_load_roundtrip (st st2 : ManagerState) (name : String) (t : TimerT)
    (ht : st.timers name = some t) (hntt : t.next_trigger_time ≠ none)
    (hstore : st2.store = saveStates st.timers) (now : ℚ) (v : ℤ) :
    ∃ t', (addTimer st2 name t.interval_minutes t.random_variance_minutes now v).timers name
        = some t' ∧
      t'.is_active = t.is_active ∧ t'.last_triggered = t.last_triggered ∧
      t'.next_trigger_time = t.next_trigger_time := by
  rcases hn : t.next_trigger_time with - | ntt
  · exact absurd hn hntt
  · have hst2 : st2.store name = some (saveTimerRec t) := by
      rw [hstore]
      unfold saveStates
      rw [ht]
      rfl
    have hrec : (addTimer st2 name t.interval_minutes t.random_variance_minutes now v).timers
        name = some ({
          name := name,
          interval_minutes := t.interval_minutes,
          last_triggered := t.last_triggered,
          is_active := t.is_active,
          random_variance_minutes := t.random_variance_minutes,
          next_trigger_time := some ntt }) := by
      unfold addTimer
      rw [hst2]
      dsimp only [saveTimerRec]
      rw [hn]
      dsimp only
      rw [if_pos rfl]
    exact ⟨_, hrec, rfl, rfl, rfl⟩

theorem save_load_roundtrip_witness :
    ∃ t', (addTimer stReload "a" timerA.interval_minutes timerA.random_variance_minutes
        500 0).timers "a" = some t' ∧
      t'.is_active = timerA.is_active ∧ t'.last_triggered = timerA.last_triggered ∧
      t'.next_trigger_time = timerA.next_trigger_time :=
  save_load_roundtrip stA stReload "a" timerA (by simp [stA]) (by simp [timerA]) rfl 500 0

/-- Claim C10: `reset_timer` rewrites only the named timer, clearing its
`last_triggered` and recomputing its `next_trigger_time` from `now`; every
other timer and the shared `last_any_timer` (and `min_gap_minutes`) are
unchanged, so after a reset every timer is still blocked by the global
minimum-gap check exactly as before. -/
theorem reset_frame (st : ManagerState) (name : String) (now : ℚ) (v : ℤ) (t : TimerT)
    (ht : st.timers name = some t) :
    (resetTimer st name now v).timers name =
      some ({ t with
        last_triggered := none,
        next_trigger_time :=
          some (calculateNextTrigger ({ t with last_triggered := none }) v now) }) ∧
    (∀ n, n ≠ name → (resetTimer st name now v).timers n = st.timers n) ∧
    (resetTimer st name now v).last_any_timer = st.last_any_timer ∧
    (resetTimer st name now v).min_gap_minutes = st.min_gap_minutes ∧
    ∀ (t2 : TimerT) (now2 t0 : ℚ),
      st.last_any_timer = some t0 →
      now2 - t0 < ((st.min_gap_minutes : ℤ) : ℚ) * 60 →
      shouldTriggerTimer (resetTimer st name now v).min_gap_minutes
        (resetTimer st name now v).last_any_timer t2 now2 = false := by
  have hred : resetTimer st name now v =
      { st with
          timers := fun n => if n = name then
              some ({ t with
                last_triggered := none,
                next_trigger_time :=
                  some (calculateNextTrigger ({ t with last_triggered := none }) v now) })
            else st.timers n,
          store := saveStates (fun n => if n = name then
              some ({ t with
                last_triggered := none,
                next_trigger_time :=
                  some (calculateNextTrigger ({ t with last_triggered := none }) v now) })
            else st.timers n) } := by
    unfold resetTimer
    rw [ht]
  rw [hred]
  refine ⟨?_, ?_, rfl, rfl, ?_⟩
  · dsimp only
    rw [if_pos rfl]
  · intro n hn
    dsimp only
    rw [if_neg hn]
  · intro t2 now2 t0 h0 hblock
    dsimp only
    rw [h0]
    exact shouldTriggerTimer_blocked st.min_gap_minutes t0 t2 now2 hblock

theorem reset_frame_witness :
    (resetTimer stA "a" 200 0).timers "b" = stA.timers "b" ∧
    (resetTimer stA "a" 200 0).last_any_timer = stA.last_any_timer :=
  ⟨(reset_frame stA "a" 200 0 timerA (by simp [stA])).2.1 "b" (by simp),
   (reset_frame stA "a" 200 0 timerA (by simp [stA])).2.2.1⟩

end DrinkReminder
